import Mathlib

/-!
Shallow embedding of the batch image-generation pipeline (src/gen_image/main.py)
and proofs about its specification.

Effectful Python code is modelled as pure functions over a `World` record that
fixes the outcome of every primitive effect (file existence, file reads, mkdir,
HTTP GET, file writes, the remote Ark generation call, environment lookups and
directory listing).  Each operation returns an `Except PyExn` value — `.error`
models an uncaught Python exception — paired with the ordered list of
observable `Event`s it performs.  A `try/except Exception` block is modelled by
running the try-body and matching on its `Except` result.
-/

/-- A Python exception value (only its message is relevant). -/
structure PyExn where
  msg : String
deriving Repr, DecidableEq

/-- An HTTP response as seen through httpx: status code and body bytes. -/
structure HttpResp where
  status : Nat
  content : List Nat
deriving Repr, DecidableEq

/-- One entry of the Ark generation response (`response.data[i]`). -/
structure ArkEntry where
  url : String
deriving Repr, DecidableEq

/-- The Ark generation response (`response.data`). -/
structure ArkResponse where
  data : List ArkEntry
deriving Repr, DecidableEq

/-- The request record passed to `client.images.generate` in
`image_generate_api`, with the literal keyword arguments of the source. -/
structure ArkRequest where
  model : Option String
  prompt : String
  image : Option String
  sequential_image_generation : String
  response_format : String
  size : String
  stream : Bool
  watermark : Bool
deriving Repr, DecidableEq

/-- Observable events of one program run, in order of occurrence. -/
inductive Event where
  | logInfo (msg : String)
  | logError (msg : String)
  | semAcquire
  | semRelease
  | callStart (req : ArkRequest)
  | callEnd
  | callFail
  | mkdirEvt (path : String)
  | httpGetEvt (url : String) (timeout : Nat)
  | fileWrite (path : String)
deriving Repr, DecidableEq

/-- Outcomes of every effectful primitive the program uses.  Quantifying over
`World` quantifies over every behaviour of the file system, the network and
the remote service, including failures. -/
structure World where
  fileExists : String → Bool
  readBytes : String → Except PyExn (List Nat)
  mkdir : String → Except PyExn Unit
  nowStr : String
  httpGet : String → Nat → Except PyExn HttpResp
  writeFile : String → List Nat → Except PyExn Unit
  arkGenerate : ArkRequest → Except PyExn ArkResponse
  envModel : Option String
  inputListing : List String

/-- Base64 alphabet (RFC 4648, the alphabet used by Python `base64.b64encode`). -/
def b64Alphabet : List Char :=
  "ABCDEFGHIJKLMNOPQRSTUVWXYZabcdefghijklmnopqrstuvwxyz0123456789+/".toList

/-- The base64 digit for a 6-bit value. -/
def b64Char (n : Nat) : Char := b64Alphabet.getD n 'A'

/-- Base64-encode a byte list, three bytes at a time, with `=` padding:
the behaviour of Python `base64.b64encode`. -/
def base64Chunks : List Nat → List Char
  | [] => []
  | [a] =>
    let n := a * 65536
    [b64Char (n / 262144), b64Char (n / 4096 % 64), '=', '=']
  | [a, b] =>
    let n := a * 65536 + b * 256
    [b64Char (n / 262144), b64Char (n / 4096 % 64), b64Char (n / 64 % 64), '=']
  | a :: b :: c :: rest =>
    let n := a * 65536 + b * 256 + c
    b64Char (n / 262144) :: b64Char (n / 4096 % 64) :: b64Char (n / 64 % 64) ::
      b64Char (n % 64) :: base64Chunks rest

/-- Base64 encoding of a byte list as a string. -/
def base64Encode (bytes : List Nat) : String := String.mk (base64Chunks bytes)

/-- `image_localpath_to_base64` from the source: resolve the file under the
fixed `input` root; inside `try`: if the file is missing, log and return
`None`; otherwise read it, base64-encode and return the data URI with the
constant `image/jpeg` media type; `except Exception` logs and returns `None`. -/
def image_localpath_to_base64 (w : World) (filename : String) :
    Except PyExn (Option String) × List Event :=
  let target_path := "input/" ++ filename
  let body : Except PyExn (Option String) × List Event :=
    if w.fileExists target_path = false then
      (.ok none, [.logError ("找不到输入文件: " ++ target_path)])
    else
      match w.readBytes target_path with
      | .error e => (.error e, [])
      | .ok bs => (.ok (some ("data:image/jpeg;base64," ++ base64Encode bs)), [])
  match body with
  | (.error e, evs) => (.ok none, evs ++ [.logError ("Base64转换失败: " ++ e.msg)])
  | (.ok r, evs) => (.ok r, evs)

theorem image_localpath_to_base64_no_exn (w : World) (f : String) :
    ∃ r evs, image_localpath_to_base64 w f = (.ok r, evs) := by
  unfold image_localpath_to_base64
  by_cases h : w.fileExists ("input/" ++ f) = false
  · simp [h]
  · cases hr : w.readBytes ("input/" ++ f) <;> simp [h, hr]

/-- The output directory chosen by `image_url_to_localpath`: `output` when no
subdirectory is given, `output/<subdir>` otherwise. -/
def outDir (subdir : Option String) : String :=
  match subdir with
  | none => "output"
  | some s => "output/" ++ s

/-- `image_url_to_localpath` from the source: compute the output directory;
inside `try`: create it (`mkdir(parents=True, exist_ok=True)`), build the
timestamped `.png` target name, perform one `httpx` GET with `timeout=60`,
`raise_for_status()` (raises on any non-2xx status), write the body and
return the target path; `except Exception` logs and returns `None`. -/
def image_url_to_localpath (w : World) (url : String) (subdir : Option String) :
    Except PyExn (Option String) × List Event :=
  let output_dir := outDir subdir
  let body : Except PyExn (Option String) × List Event :=
    match w.mkdir output_dir with
    | .error e => (.error e, [.mkdirEvt output_dir])
    | .ok _ =>
      let target_path := output_dir ++ "/" ++ w.nowStr ++ ".png"
      match w.httpGet url 60 with
      | .error e => (.error e, [.mkdirEvt output_dir, .httpGetEvt url 60])
      | .ok resp =>
        if 200 ≤ resp.status ∧ resp.status < 300 then
          match w.writeFile target_path resp.content with
          | .error e => (.error e, [.mkdirEvt output_dir, .httpGetEvt url 60])
          | .ok _ =>
            (.ok (some target_path),
             [.mkdirEvt output_dir, .httpGetEvt url 60, .fileWrite target_path])
        else
          (.error ⟨"HTTPStatusError"⟩, [.mkdirEvt output_dir, .httpGetEvt url 60])
  match body with
  | (.error e, evs) => (.ok none, evs ++ [.logError ("网络下载失败: " ++ e.msg)])
  | (.ok r, evs) => (.ok r, evs)

theorem image_url_to_localpath_no_exn (w : World) (url : String) (sd : Option String) :
    ∃ r evs, image_url_to_localpath w url sd = (.ok r, evs) := by
  unfold image_url_to_localpath
  cases hm : w.mkdir (outDir sd) with
  | error e => simp [hm]
  | ok u =>
    cases hg : w.httpGet url 60 with
    | error e => simp [hm, hg]
    | ok resp =>
      by_cases hs : 200 ≤ resp.status ∧ resp.status < 300
      · cases hw : w.writeFile (outDir sd ++ "/" ++ w.nowStr ++ ".png") resp.content <;>
          simp [hm, hg, hs, hw]
      · simp [hm, hg, hs]

/-- The request record built at the `client.images.generate` call site. -/
def mkRequest (w : World) (prompt : String) (ref_image : Option String) : ArkRequest :=
  { model := w.envModel
    prompt := prompt
    image := ref_image
    sequential_image_generation := "disabled"
    response_format := "url"
    size := "2K"
    stream := false
    watermark := true }

/-- `image_generate_api` from the source: `async with sem` acquires the
admission semaphore, then inside `try`: await the remote generation call and
return `response.data[0].url` (an empty `data` list raises `IndexError`);
`except Exception` logs and returns `None`; the semaphore is released when the
`async with` block exits, whatever happened inside. -/
def image_generate_api (w : World) (prompt : String) (ref_image : Option String) :
    Except PyExn (Option String) × List Event :=
  let req := mkRequest w prompt ref_image
  let body : Except PyExn (Option String) × List Event :=
    match w.arkGenerate req with
    | .error e => (.error e, [.callStart req, .callFail])
    | .ok resp =>
      match resp.data with
      | [] => (.error ⟨"IndexError"⟩, [.callStart req, .callEnd])
      | entry :: _ => (.ok (some entry.url), [.callStart req, .callEnd])
  let handled : Except PyExn (Option String) × List Event :=
    match body with
    | (.error e, evs) => (.ok none, evs ++ [.logError ("Ark 图片生成 API 调用异常: " ++ e.msg)])
    | (.ok r, evs) => (.ok r, evs)
  (handled.1, .semAcquire :: handled.2 ++ [.semRelease])

theorem image_generate_api_no_exn (w : World) (p : String) (r : Option String) :
    ∃ u evs, image_generate_api w p r = (.ok u, evs) := by
  unfold image_generate_api
  cases hr : w.arkGenerate (mkRequest w p r) with
  | error e => simp [hr]
  | ok resp => cases hd : resp.data <;> simp [hr, hd]

/-- Whether an optional string is truthy in the Python sense (`if s:`):
present and non-empty. -/
def pyTruthy (o : Option String) : Bool :=
  match o with
  | none => false
  | some s => !(s == "")

/-- One task configuration dict as built by `main`: `prompt`, `ref_file` and
`batch_subdir` (the latter two read back with `.get`, hence optional). -/
structure TaskConfig where
  prompt : String
  ref_file : Option String
  batch_subdir : Option String
deriving Repr, DecidableEq

/-- `run_single_task` from the source: encode the reference if `ref_file` is
truthy, log the start line, await `image_generate_api`, and if the returned
url is truthy await `image_url_to_localpath`. -/
def run_single_task (w : World) (t : TaskConfig) : Except PyExn Unit × List Event :=
  let b64step : Except PyExn (Option String) × List Event :=
    if pyTruthy t.ref_file then image_localpath_to_base64 w (t.ref_file.getD "")
    else (.ok none, [])
  match b64step with
  | (.error e, evs) => (.error e, evs)
  | (.ok b64_data, evs1) =>
    let evs2 := evs1 ++ [.logInfo ("🚀 启动任务: " ++ t.prompt)]
    match image_generate_api w t.prompt b64_data with
    | (.error e, evs3) => (.error e, evs2 ++ evs3)
    | (.ok urlOpt, evs3) =>
      if pyTruthy urlOpt then
        match image_url_to_localpath w (urlOpt.getD "") t.batch_subdir with
        | (.error e, evs4) => (.error e, evs2 ++ evs3 ++ evs4)
        | (.ok _, evs4) => (.ok (), evs2 ++ evs3 ++ evs4)
      else (.ok (), evs2 ++ evs3)

/-- The literal subject list `ref_name_list` of `main`. -/
def refNameList : List String :=
  ["刘亦菲", "肖战", "赵露思", "王嘉尔", "杨幂", "杨紫", "蔡徐坤", "迪丽热巴", "赵丽颖", "权志龙"]

/-- The literal background list inside the prompt f-string of `main`. -/
def backgrounds : List String :=
  ["机场", "高铁站", "广场", "商场", "咖啡厅", "公园", "街头", "艺术展厅", "酒店大堂"]

/-- The literal pose list inside the prompt f-string of `main`. -/
def poses : List String := ["正面", "侧面", "四分之三侧面", "微微侧身"]

/-- `random.choice(xs)` for the `k`-th draw of the run, modelled by an
arbitrary stream `rnd` of indices reduced modulo the list length; quantifying
over `rnd` quantifies over every possible sequence of random choices. -/
def pyChoice (rnd : Nat → Nat) (k : Nat) (xs : List String) : String :=
  xs.getD (rnd k % xs.length) ""

/-- The prompt f-string of `main`, with the two random choices substituted. -/
def mkPrompt (name bg pose : String) : String :=
  name ++ "将参考图中的围巾随意地绕在脖子上，背景在" ++ bg ++ ",人物" ++ pose ++
    "朝向镜头,围巾中的图案和字母可以不用太清晰,时尚街拍风格浅景深，背景虚化，真实摄影。,比例1:1"

/-- Python `img.replace(".", "_")`: every dot character becomes an underscore. -/
def dotToUnderscore (s : String) : String :=
  String.mk (s.toList.map (fun c => if c = '.' then '_' else c))

/-- The `k`-th task dict of the comprehension in `main`, for subject `name`
and reference file `img`; draw indices `2*k` and `2*k+1` are the two
`random.choice` calls evaluated for this element. -/
def mkTask (rnd : Nat → Nat) (k : Nat) (name img : String) : TaskConfig :=
  { prompt := mkPrompt name (pyChoice rnd (2 * k) backgrounds) (pyChoice rnd (2 * k + 1) poses)
    ref_file := some img
    batch_subdir := some (dotToUnderscore img) }

/-- The inner loop of the comprehension (`for img in ref_image_name_list`),
with `k` the index of the first task produced. -/
def buildRow (rnd : Nat → Nat) (name : String) : List String → Nat → List TaskConfig
  | [], _ => []
  | img :: rest, k => mkTask rnd k name img :: buildRow rnd name rest (k + 1)

/-- The outer loop of the comprehension (`for name in ref_name_list`). -/
def buildRows (rnd : Nat → Nat) (imgs : List String) : List String → Nat → List TaskConfig
  | [], _ => []
  | name :: rest, k => buildRow rnd name imgs k ++ buildRows rnd imgs rest (k + imgs.length)

/-- `tasks_to_run` of `main` as a function of the subject list, the listing of
the `input` directory, and the random stream. -/
def buildTasks (rnd : Nat → Nat) (names imgs : List String) : List TaskConfig :=
  buildRows rnd imgs names 0

/-- The task list `main` actually builds: subjects are the literal
`ref_name_list`, reference files are the listing of the `input` directory. -/
def mainTasks (w : World) (rnd : Nat → Nat) : List TaskConfig :=
  buildTasks rnd refNameList w.inputListing

/-- The event traces of the tasks `main` launches, one per task. -/
def taskTraces (w : World) (rnd : Nat → Nat) : List (List Event) :=
  (mainTasks w rnd).map (fun t => (run_single_task w t).2)

/-- Projection of a tagged concurrent trace onto the events of task `i`. -/
def proj (g : List (Nat × Event)) (i : Nat) : List Event :=
  (g.filter (fun pe => pe.1 == i)).map Prod.snd

/-- `l` is an initial segment of `g`. -/
def isPre (l g : List α) : Prop := ∃ t, l ++ t = g

/-- A tagged trace `g` is a completed `asyncio.gather` execution of the task
traces `ts`: every event belongs to one of the tasks, and the
projection of each task is exactly its full trace (all tasks have resolved). -/
def gatherRel (ts : List (List Event)) (g : List (Nat × Event)) : Prop :=
  (∀ pe ∈ g, pe.1 < ts.length) ∧ ∀ i, i < ts.length → proj g i = ts.getD i []

/-- The start log line of `main` for `k` tasks. -/
def mainStartMsg (k : Nat) : String := "🔥 开始并发执行 " ++ toString k ++ " 个任务..."

/-- The completion log line of `main`. -/
def mainDoneMsg : String := "✨ 所有任务处理完毕"

/-- A complete trace of `main`: the start log line, then some completed
gather interleaving of all task traces (task events tagged with their task
index), then the completion log line.  `none` tags the orchestrator itself. -/
def mainRel (w : World) (rnd : Nat → Nat) (tr : List (Option Nat × Event)) : Prop :=
  ∃ g, gatherRel (taskTraces w rnd) g ∧
    tr = (none, .logInfo (mainStartMsg (mainTasks w rnd).length)) ::
      (g.map (fun pe => (some pe.1, pe.2)) ++ [(none, .logInfo mainDoneMsg)])

/-- Does this event acquire the admission semaphore? -/
def Event.isSemAcquire : Event → Bool
  | .semAcquire => true
  | _ => false

/-- Does this event release the admission semaphore? -/
def Event.isSemRelease : Event → Bool
  | .semRelease => true
  | _ => false

/-- Does this event start the remote generation call? -/
def Event.isCallStart : Event → Bool
  | .callStart _ => true
  | _ => false

/-- Does this event finish the remote generation call (success or raise)? -/
def Event.isCallDone : Event → Bool
  | .callEnd => true
  | .callFail => true
  | _ => false

/-- Is this event an HTTP GET retrieval? -/
def Event.isHttpGet : Event → Bool
  | .httpGetEvt _ _ => true
  | _ => false

/-- Is this event a durable file write? -/
def Event.isWrite : Event → Bool
  | .fileWrite _ => true
  | _ => false

/-- Is this event a directory-creation attempt? -/
def Event.isMkdir : Event → Bool
  | .mkdirEvt _ => true
  | _ => false

/-- Number of events satisfying `p` in a plain event list. -/
def countP (p : Event → Bool) (l : List Event) : Nat := (l.filter p).length

/-- Number of events satisfying `p` in a tagged concurrent trace. -/
def countPg (p : Event → Bool) (g : List (Nat × Event)) : Nat :=
  (g.filter (fun pe => p pe.2)).length

/-- Task `i` currently holds the admission semaphore in trace `g`. -/
def holdsB (l : List Event) : Bool :=
  l.any Event.isSemAcquire && !(l.any Event.isSemRelease)

/-- Task `i` currently has a generation call in flight in trace `g`. -/
def inCallB (l : List Event) : Bool :=
  l.any Event.isCallStart && !(l.any Event.isCallDone)

/-- Number of tasks among `0..n-1` with a generation call in flight. -/
def inflightCount (n : Nat) (g : List (Nat × Event)) : Nat :=
  ((Finset.range n).filter (fun i => inCallB (proj g i) = true)).card

/-- Number of tasks among `0..n-1` currently holding the semaphore. -/
def heldCount (n : Nat) (g : List (Nat × Event)) : Nat :=
  ((Finset.range n).filter (fun i => holdsB (proj g i) = true)).card

/-- Semaphore legality for `asyncio.Semaphore(5)`: an acquire can only be
scheduled when fewer than 5 permits are outstanding. -/
def semLegal (g : List (Nat × Event)) : Prop :=
  ∀ l i, isPre (l ++ [(i, Event.semAcquire)]) g →
    countPg Event.isSemAcquire l < countPg Event.isSemRelease l + 5

theorem isPre_refl (l : List α) : isPre l l := ⟨[], List.append_nil l⟩

theorem isPre_trans {a b c : List α} (h1 : isPre a b) (h2 : isPre b c) : isPre a c := by
  obtain ⟨t, ht⟩ := h1
  obtain ⟨u, hu⟩ := h2
  exact ⟨t ++ u, by rw [← List.append_assoc, ht, hu]⟩

theorem mem_of_isPre {l g : List α} (h : isPre l g) {x : α} (hx : x ∈ l) : x ∈ g := by
  obtain ⟨t, ht⟩ := h
  rw [← ht]
  exact List.mem_append_left t hx

theorem isPre_take {l g : List α} (h : isPre l g) : l = g.take l.length := by
  obtain ⟨t, ht⟩ := h
  rw [← ht, List.take_left]

theorem length_le_of_isPre {l g : List α} (h : isPre l g) : l.length ≤ g.length := by
  obtain ⟨t, ht⟩ := h
  rw [← ht, List.length_append]
  omega

theorem countP_cons (p : Event → Bool) (e : Event) (l : List Event) :
    countP p (e :: l) = (if p e then 1 else 0) + countP p l := by
  simp only [countP, List.filter_cons]
  split <;> simp [Nat.add_comm]

theorem countP_append (p : Event → Bool) (a b : List Event) :
    countP p (a ++ b) = countP p a + countP p b := by
  simp [countP, List.filter_append]

theorem countP_nil (p : Event → Bool) : countP p [] = 0 := rfl

theorem countPg_cons (p : Event → Bool) (j : Nat) (e : Event) (g : List (Nat × Event)) :
    countPg p ((j, e) :: g) = (if p e then 1 else 0) + countPg p g := by
  simp only [countPg, List.filter_cons]
  split <;> simp [Nat.add_comm]

theorem countPg_append (p : Event → Bool) (a b : List (Nat × Event)) :
    countPg p (a ++ b) = countPg p a + countPg p b := by
  simp [countPg, List.filter_append]

theorem countPg_nil (p : Event → Bool) : countPg p [] = 0 := rfl

theorem countPg_le_of_isPre (p : Event → Bool) {l g : List (Nat × Event)}
    (h : isPre l g) : countPg p l ≤ countPg p g := by
  obtain ⟨t, ht⟩ := h
  rw [← ht, countPg_append]
  omega

theorem proj_cons (j : Nat) (e : Event) (g : List (Nat × Event)) (i : Nat) :
    proj ((j, e) :: g) i = if j = i then e :: proj g i else proj g i := by
  by_cases h : j = i <;> simp [proj, List.filter_cons, h]

theorem proj_append (a b : List (Nat × Event)) (i : Nat) :
    proj (a ++ b) i = proj a i ++ proj b i := by
  simp [proj, List.filter_append]

theorem proj_isPre {l g : List (Nat × Event)} (h : isPre l g) (i : Nat) :
    isPre (proj l i) (proj g i) := by
  obtain ⟨t, ht⟩ := h
  exact ⟨proj t i, by rw [← proj_append, ht]⟩

theorem semLegal_of_isPre {l g : List (Nat × Event)} (h : isPre l g)
    (hg : semLegal g) : semLegal l := by
  intro m i hm
  exact hg m i (isPre_trans hm h)

/-- Under semaphore semantics, outstanding acquires never exceed releases
plus the capacity 5. -/
theorem semLegal_bound (g : List (Nat × Event)) (h : semLegal g) :
    countPg Event.isSemAcquire g ≤ countPg Event.isSemRelease g + 5 := by
  induction g using List.reverseRecOn with
  | nil => simp [countPg]
  | append_singleton l x ih =>
    have hl : semLegal l := semLegal_of_isPre ⟨[x], rfl⟩ h
    have hb := ih hl
    obtain ⟨j, e⟩ := x
    rw [countPg_append, countPg_append]
    cases e with
    | semAcquire =>
      have hcap := h l j (isPre_refl _)
      have h1 : countPg Event.isSemAcquire [(j, Event.semAcquire)] = 1 := rfl
      have h2 : countPg Event.isSemRelease [(j, Event.semAcquire)] = 0 := rfl
      omega
    | semRelease =>
      have h1 : countPg Event.isSemAcquire [(j, Event.semRelease)] = 0 := rfl
      have h2 : countPg Event.isSemRelease [(j, Event.semRelease)] = 1 := rfl
      omega
    | logInfo m =>
      have h1 : countPg Event.isSemAcquire [(j, Event.logInfo m)] = 0 := rfl
      have h2 : countPg Event.isSemRelease [(j, Event.logInfo m)] = 0 := rfl
      omega
    | logError m =>
      have h1 : countPg Event.isSemAcquire [(j, Event.logError m)] = 0 := rfl
      have h2 : countPg Event.isSemRelease [(j, Event.logError m)] = 0 := rfl
      omega
    | callStart r =>
      have h1 : countPg Event.isSemAcquire [(j, Event.callStart r)] = 0 := rfl
      have h2 : countPg Event.isSemRelease [(j, Event.callStart r)] = 0 := rfl
      omega
    | callEnd =>
      have h1 : countPg Event.isSemAcquire [(j, Event.callEnd)] = 0 := rfl
      have h2 : countPg Event.isSemRelease [(j, Event.callEnd)] = 0 := rfl
      omega
    | callFail =>
      have h1 : countPg Event.isSemAcquire [(j, Event.callFail)] = 0 := rfl
      have h2 : countPg Event.isSemRelease [(j, Event.callFail)] = 0 := rfl
      omega
    | mkdirEvt p =>
      have h1 : countPg Event.isSemAcquire [(j, Event.mkdirEvt p)] = 0 := rfl
      have h2 : countPg Event.isSemRelease [(j, Event.mkdirEvt p)] = 0 := rfl
      omega
    | httpGetEvt u t0 =>
      have h1 : countPg Event.isSemAcquire [(j, Event.httpGetEvt u t0)] = 0 := rfl
      have h2 : countPg Event.isSemRelease [(j, Event.httpGetEvt u t0)] = 0 := rfl
      omega
    | fileWrite p =>
      have h1 : countPg Event.isSemAcquire [(j, Event.fileWrite p)] = 0 := rfl
      have h2 : countPg Event.isSemRelease [(j, Event.fileWrite p)] = 0 := rfl
      omega

/-- A tagged count is the sum of the per-task counts of the projections. -/
theorem countPg_eq_sum (p : Event → Bool) (g : List (Nat × Event)) (n : Nat)
    (h : ∀ pe ∈ g, pe.1 < n) :
    countPg p g = ∑ i ∈ Finset.range n, countP p (proj g i) := by
  induction g with
  | nil => simp [countPg, countP, proj]
  | cons pe g ih =>
    obtain ⟨j, e⟩ := pe
    have hj : j < n := h (j, e) (List.mem_cons_self _ _)
    have hg : ∀ x ∈ g, x.1 < n := fun x hx => h x (List.mem_cons_of_mem _ hx)
    have hpt : ∀ i ∈ Finset.range n, countP p (proj ((j, e) :: g) i) =
        countP p (proj g i) + (if i = j then (if p e then 1 else 0) else 0) := by
      intro i _
      rw [proj_cons]
      by_cases hij : j = i
      · subst hij
        rw [if_pos rfl, if_pos rfl, countP_cons]
        omega
      · rw [if_neg hij, if_neg (fun hc => hij hc.symm)]
        omega
    rw [countPg_cons, Finset.sum_congr rfl hpt, Finset.sum_add_distrib,
      Finset.sum_ite_eq' (Finset.range n) j (fun _ => if p e then 1 else 0),
      if_pos (Finset.mem_range.mpr hj), ih hg]
    omega

theorem countP_eq_zero_of_any_false {p : Event → Bool} {l : List Event}
    (h : l.any p = false) : countP p l = 0 := by
  simp only [countP, List.length_eq_zero, List.filter_eq_nil_iff]
  intro a ha
  simp only [List.any_eq_false] at h
  simp [h a ha]

theorem countP_pos_of_any_true {p : Event → Bool} {l : List Event}
    (h : l.any p = true) : 1 ≤ countP p l := by
  rcases List.any_eq_true.mp h with ⟨x, hx, hpx⟩
  have : x ∈ l.filter p := List.mem_filter.mpr ⟨hx, hpx⟩
  exact List.length_pos_of_mem this

/-- Holding the semaphore means one more acquire than release so far. -/
theorem holdsB_counts {l : List Event} (h : holdsB l = true) :
    countP Event.isSemRelease l = 0 ∧ 1 ≤ countP Event.isSemAcquire l := by
  unfold holdsB at h
  rw [Bool.and_eq_true, Bool.not_eq_true'] at h
  exact ⟨countP_eq_zero_of_any_false h.2, countP_pos_of_any_true h.1⟩

/-- Tasks holding the semaphore are bounded by outstanding acquires. -/
theorem heldCount_le (n : Nat) (g : List (Nat × Event))
    (hid : ∀ pe ∈ g, pe.1 < n)
    (hrel : ∀ i, i < n →
      countP Event.isSemRelease (proj g i) ≤ countP Event.isSemAcquire (proj g i)) :
    heldCount n g + countPg Event.isSemRelease g ≤ countPg Event.isSemAcquire g := by
  rw [countPg_eq_sum Event.isSemRelease g n hid, countPg_eq_sum Event.isSemAcquire g n hid]
  unfold heldCount
  have hcard : ((Finset.range n).filter (fun i => holdsB (proj g i) = true)).card =
      ∑ i ∈ Finset.range n, (if holdsB (proj g i) = true then 1 else 0) := by
    simp
  rw [hcard, ← Finset.sum_add_distrib]
  apply Finset.sum_le_sum
  intro i hi
  have hin : i < n := Finset.mem_range.mp hi
  by_cases hh : holdsB (proj g i) = true
  · obtain ⟨hz, ho⟩ := holdsB_counts hh
    rw [if_pos hh, hz]
    omega
  · rw [if_neg hh]
    have := hrel i hin
    omega

/-- A generation call is only in flight while the semaphore is held. -/
theorem inflight_le_held (n : Nat) (g : List (Nat × Event))
    (h : ∀ i, i < n → inCallB (proj g i) = true → holdsB (proj g i) = true) :
    inflightCount n g ≤ heldCount n g := by
  apply Finset.card_le_card
  intro i hi
  rw [Finset.mem_filter] at hi ⊢
  exact ⟨hi.1, h i (Finset.mem_range.mp hi.1) hi.2⟩

theorem isPre_append_cases {l a b : List α} (h : isPre l (a ++ b)) :
    isPre l a ∨ ∃ l2, l = a ++ l2 ∧ isPre l2 b := by
  obtain ⟨t, ht⟩ := h
  rcases List.append_eq_append_iff.mp ht with ⟨c, hc1, hc2⟩ | ⟨c, hc1, hc2⟩
  · exact Or.inl ⟨c, hc1.symm⟩
  · exact Or.inr ⟨c, hc1, ⟨t, hc2.symm⟩⟩

theorem isPre_single {x : α} {l : List α} (h : isPre l [x]) : l = [] ∨ l = [x] := by
  obtain ⟨t, ht⟩ := h
  rcases l with _ | ⟨a, l'⟩
  · exact Or.inl rfl
  · right
    simp only [List.cons_append] at ht
    injection ht with h1 h2
    subst h1
    rcases List.append_eq_nil.mp h2 with ⟨rfl, -⟩
    rfl

theorem isPre_three {x y z : α} {l : List α} (h : isPre l [x, y, z]) :
    l = [] ∨ l = [x] ∨ l = [x, y] ∨ l = [x, y, z] := by
  obtain ⟨t, ht⟩ := h
  rcases l with _ | ⟨a, _ | ⟨b, _ | ⟨c, rest⟩⟩⟩
  · exact Or.inl rfl
  · simp only [List.cons_append, List.nil_append] at ht
    injection ht with h1 _
    subst h1
    exact Or.inr (Or.inl rfl)
  · simp only [List.cons_append, List.nil_append] at ht
    injection ht with h1 ht1
    injection ht1 with h2 _
    subst h1; subst h2
    exact Or.inr (Or.inr (Or.inl rfl))
  · simp only [List.cons_append] at ht
    injection ht with h1 ht1
    injection ht1 with h2 ht2
    injection ht2 with h3 ht3
    subst h1; subst h2; subst h3
    rcases List.append_eq_nil.mp ht3 with ⟨rfl, -⟩
    exact Or.inr (Or.inr (Or.inr rfl))

theorem logError_only_any_false {logs : List Event}
    (h : ∀ e ∈ logs, ∃ m, e = Event.logError m) :
    logs.any Event.isSemAcquire = false ∧ logs.any Event.isSemRelease = false ∧
      logs.any Event.isCallStart = false ∧ logs.any Event.isCallDone = false := by
  refine ⟨?_, ?_, ?_, ?_⟩ <;>
    · rw [List.any_eq_false]
      intro e he
      rcases h e he with ⟨m, rfl⟩
      simp [Event.isSemAcquire, Event.isSemRelease, Event.isCallStart, Event.isCallDone]

/-- The event trace of one `image_generate_api` run: acquire first, then the
remote call start, then its end or failure, then possibly an error log, and
the release last — in every world, including failing ones. -/
theorem image_generate_api_trace_shape (w : World) (p : String) (r : Option String) :
    ∃ req fin logs, (image_generate_api w p r).2 =
      [Event.semAcquire, Event.callStart req, fin] ++ logs ++ [Event.semRelease] ∧
      (fin = Event.callEnd ∨ fin = Event.callFail) ∧
      (∀ e ∈ logs, ∃ m, e = Event.logError m) := by
  unfold image_generate_api
  cases hr : w.arkGenerate (mkRequest w p r) with
  | error e =>
    refine ⟨mkRequest w p r, Event.callFail,
      [Event.logError ("Ark 图片生成 API 调用异常: " ++ e.msg)], by simp [hr], Or.inr rfl, ?_⟩
    intro x hx
    simp only [List.mem_singleton] at hx
    exact ⟨_, hx⟩
  | ok resp =>
    cases hd : resp.data with
    | nil =>
      refine ⟨mkRequest w p r, Event.callEnd,
        [Event.logError ("Ark 图片生成 API 调用异常: " ++ "IndexError")],
        by simp [hr, hd], Or.inl rfl, ?_⟩
      intro x hx
      simp only [List.mem_singleton] at hx
      exact ⟨_, hx⟩
    | cons entry rest =>
      exact ⟨mkRequest w p r, Event.callEnd, [], by simp [hr, hd], Or.inl rfl, by simp⟩

/-- Every prefix of a single generation-call trace keeps the call in flight
only while the semaphore is held, never releases more than it acquires, and
acquires at most once. -/
theorem taskPre_facts (req : ArkRequest) (fin : Event) (logs : List Event)
    (hfin : fin = Event.callEnd ∨ fin = Event.callFail)
    (hlogs : ∀ e ∈ logs, ∃ m, e = Event.logError m)
    (l : List Event)
    (hl : isPre l ([Event.semAcquire, Event.callStart req, fin] ++ logs ++ [Event.semRelease])) :
    (inCallB l = true → holdsB l = true) ∧
      countP Event.isSemRelease l ≤ countP Event.isSemAcquire l ∧
      countP Event.isSemAcquire l ≤ 1 := by
  have hfinSem : Event.isSemAcquire fin = false ∧ Event.isSemRelease fin = false ∧
      Event.isCallDone fin = true := by
    rcases hfin with rfl | rfl <;>
      simp [Event.isSemAcquire, Event.isSemRelease, Event.isCallDone]
  obtain ⟨hany1, hany2, hany3, hany4⟩ := logError_only_any_false hlogs
  have hc1 : countP Event.isSemAcquire logs = 0 := countP_eq_zero_of_any_false hany1
  have hc2 : countP Event.isSemRelease logs = 0 := countP_eq_zero_of_any_false hany2
  have hAdone : [Event.semAcquire, Event.callStart req, fin].any Event.isCallDone = true := by
    rw [List.any_eq_true]
    exact ⟨fin, by simp, hfinSem.2.2⟩
  rw [List.append_assoc] at hl
  rcases isPre_append_cases hl with hA | ⟨l2, rfl, hl2⟩
  · rcases isPre_three hA with rfl | rfl | rfl | rfl
    · refine ⟨fun h => Bool.noConfusion h, ?_, ?_⟩ <;> simp [countP]
    · refine ⟨fun h => ?_, ?_, ?_⟩
      · exact absurd h (by decide)
      · simp only [countP_cons, countP_nil]
        simp [Event.isSemAcquire, Event.isSemRelease]
      · simp only [countP_cons, countP_nil]
        simp [Event.isSemAcquire]
    · refine ⟨fun _ => rfl, ?_, ?_⟩
      · simp only [countP_cons, countP_nil]
        simp [Event.isSemAcquire, Event.isSemRelease, Event.isCallStart]
      · simp only [countP_cons, countP_nil]
        simp [Event.isSemAcquire, Event.isCallStart]
    · refine ⟨fun h => ?_, ?_, ?_⟩
      · exfalso
        unfold inCallB at h
        rw [Bool.and_eq_true, Bool.not_eq_true', hAdone] at h
        exact Bool.noConfusion h.2
      · simp only [countP_cons, countP_nil, hfinSem.1, hfinSem.2.1]
        simp [Event.isSemAcquire, Event.isSemRelease, Event.isCallStart]
      · simp only [countP_cons, countP_nil, hfinSem.1]
        simp [Event.isSemAcquire, Event.isCallStart]
  · rcases isPre_append_cases hl2 with hL | ⟨l3, rfl, hl3⟩
    · have hmem : ∀ e ∈ l2, ∃ m, e = Event.logError m :=
        fun e he => hlogs e (mem_of_isPre hL he)
      obtain ⟨ha1, ha2, ha3, ha4⟩ := logError_only_any_false hmem
      have hz1 : countP Event.isSemAcquire l2 = 0 := countP_eq_zero_of_any_false ha1
      have hz2 : countP Event.isSemRelease l2 = 0 := countP_eq_zero_of_any_false ha2
      refine ⟨fun h => ?_, ?_, ?_⟩
      · exfalso
        unfold inCallB at h
        simp only [Bool.and_eq_true, Bool.not_eq_true', List.any_append,
          Bool.or_eq_false_iff] at h
        rw [hAdone] at h
        exact Bool.noConfusion h.2.1
      · simp only [countP_append, countP_cons, countP_nil, hz1, hz2,
          hfinSem.1, hfinSem.2.1]
        simp [Event.isSemAcquire, Event.isSemRelease, Event.isCallStart]
      · simp only [countP_append, countP_cons, countP_nil, hz1, hfinSem.1]
        simp [Event.isSemAcquire, Event.isCallStart]
    · refine ⟨fun h => ?_, ?_, ?_⟩
      · exfalso
        unfold inCallB at h
        simp only [Bool.and_eq_true, Bool.not_eq_true', List.any_append,
          Bool.or_eq_false_iff] at h
        rw [hAdone] at h
        exact Bool.noConfusion h.2.1
      · rcases isPre_single hl3 with rfl | rfl <;>
          · simp only [countP_append, countP_cons, countP_nil, hc1, hc2,
              hfinSem.1, hfinSem.2.1]
            simp [Event.isSemAcquire, Event.isSemRelease, Event.isCallStart]
      · rcases isPre_single hl3 with rfl | rfl <;>
          · simp only [countP_append, countP_cons, countP_nil, hc1, hfinSem.1]
            simp [Event.isSemAcquire, Event.isCallStart]

/-- C1: in every interleaved execution of any number of tasks in which each
task behaves like `image_generate_api` and acquires of `asyncio.Semaphore(5)`
are only scheduled when a permit is free, the number of in-flight generation
calls never exceeds 5, at every point of the execution; the acquire precedes
the call and the release follows it unconditionally (including on failure) by
`image_generate_api_trace_shape`. -/
theorem C1_concurrency_bound (n : Nat) (W : Nat → World) (P : Nat → String)
    (R : Nat → Option String) (g : List (Nat × Event))
    (hid : ∀ pe ∈ g, pe.1 < n)
    (hproj : ∀ i, i < n → isPre (proj g i) ((image_generate_api (W i) (P i) (R i)).2))
    (hsem : semLegal g) :
    ∀ l, isPre l g → inflightCount n l ≤ 5 := by
  intro l hlg
  have hid2 : ∀ pe ∈ l, pe.1 < n := fun pe h => hid pe (mem_of_isPre hlg h)
  have hfacts : ∀ i, i < n →
      (inCallB (proj l i) = true → holdsB (proj l i) = true) ∧
        countP Event.isSemRelease (proj l i) ≤ countP Event.isSemAcquire (proj l i) ∧
        countP Event.isSemAcquire (proj l i) ≤ 1 := by
    intro i hi
    obtain ⟨req, fin, logs, hshape, hfin, hlogs⟩ :=
      image_generate_api_trace_shape (W i) (P i) (R i)
    have hp : isPre (proj l i)
        ([Event.semAcquire, Event.callStart req, fin] ++ logs ++ [Event.semRelease]) := by
      rw [← hshape]
      exact isPre_trans (proj_isPre hlg i) (hproj i hi)
    exact taskPre_facts req fin logs hfin hlogs _ hp
  have h1 := inflight_le_held n l (fun i hi => (hfacts i hi).1)
  have h2 := heldCount_le n l hid2 (fun i hi => (hfacts i hi).2.1)
  have h3 := semLegal_bound l (semLegal_of_isPre hlg hsem)
  omega

/-- A fully successful concrete world used by the witnesses. -/
def wOk : World :=
  { fileExists := fun _ => true
    readBytes := fun _ => .ok [77, 97, 110]
    mkdir := fun _ => .ok ()
    nowStr := "20260101_000000_000000"
    httpGet := fun _ _ => .ok ⟨200, [1, 2]⟩
    writeFile := fun _ _ => .ok ()
    arkGenerate := fun _ => .ok ⟨[⟨"http://img"⟩]⟩
    envModel := some "doubao-seedream"
    inputListing := ["x.png"] }

/-- A concrete single-task global trace for the C1 witness. -/
def c1g : List (Nat × Event) := ((image_generate_api wOk "p" none).2).map (fun e => (0, e))

theorem C1_concurrency_bound_witness : semLegal c1g ∧ inflightCount 1 c1g ≤ 5 := by
  have hid : ∀ pe ∈ c1g, pe.1 < 1 := by
    intro pe h
    rcases List.mem_map.mp h with ⟨e, he, rfl⟩
    exact Nat.zero_lt_one
  have hproj0 : proj c1g 0 = (image_generate_api wOk "p" none).2 := by rfl
  have hproj : ∀ i, i < 1 → isPre (proj c1g i) ((image_generate_api wOk "p" none).2) := by
    intro i hi
    have hz : i = 0 := by omega
    subst hz
    rw [hproj0]
    exact isPre_refl _
  have hsem : semLegal c1g := by
    intro l i hpre
    have hlp : isPre l c1g := isPre_trans ⟨[(i, Event.semAcquire)], rfl⟩ hpre
    have hmono := countPg_le_of_isPre Event.isSemAcquire hlp
    have hrp : isPre (l ++ [(i, Event.semAcquire)]) c1g := hpre
    have hmono2 := countPg_le_of_isPre Event.isSemAcquire hrp
    have hval : countPg Event.isSemAcquire c1g = 1 := by rfl
    omega
  exact ⟨hsem, C1_concurrency_bound 1 (fun _ => wOk) (fun _ => "p") (fun _ => none)
    c1g hid hproj hsem c1g (isPre_refl _)⟩

/-- C2: `run_single_task` is total — in every world, including those where
the encoder, the generation client or the fetcher fail, it returns normally
and never propagates an exception to its caller. -/
theorem C2_run_never_raises (w : World) (t : TaskConfig) :
    (run_single_task w t).1 = Except.ok () := by
  unfold run_single_task
  obtain ⟨r1, evs1, he⟩ := image_localpath_to_base64_no_exn w (t.ref_file.getD "")
  cases hrf : pyTruthy t.ref_file with
  | true =>
    obtain ⟨u2, evs2, hg2⟩ := image_generate_api_no_exn w t.prompt r1
    cases hu : pyTruthy u2 with
    | true =>
      obtain ⟨r3, evs3, hf⟩ := image_url_to_localpath_no_exn w (u2.getD "") t.batch_subdir
      simp [hrf, he, hg2, hu, hf]
    | false => simp [hrf, he, hg2, hu]
  | false =>
    obtain ⟨u0, evs0, hg0⟩ := image_generate_api_no_exn w t.prompt none
    cases hu : pyTruthy u0 with
    | true =>
      obtain ⟨r3, evs3, hf⟩ := image_url_to_localpath_no_exn w (u0.getD "") t.batch_subdir
      simp [hrf, hg0, hu, hf]
    | false => simp [hrf, hg0, hu]

/-- C5: the encoder never raises; on a missing file it returns Empty, and on
a read failure it returns Empty — in every world, hence identically across
repeated calls. -/
theorem C5_encoder_degrades (w : World) (f : String) :
    (∃ r evs, image_localpath_to_base64 w f = (Except.ok r, evs)) ∧
      (w.fileExists ("input/" ++ f) = false →
        (image_localpath_to_base64 w f).1 = Except.ok none) ∧
      (∀ e, w.readBytes ("input/" ++ f) = Except.error e →
        (image_localpath_to_base64 w f).1 = Except.ok none) := by
  refine ⟨image_localpath_to_base64_no_exn w f, fun h => ?_, fun e he => ?_⟩
  · unfold image_localpath_to_base64
    simp [h]
  · unfold image_localpath_to_base64
    by_cases hx : w.fileExists ("input/" ++ f) = false
    · simp [hx]
    · simp [hx, he]

/-- A world in which no input file exists. -/
def wNoFile : World := { wOk with fileExists := fun _ => false }

/-- A world in which input files exist but reading raises. -/
def wReadErr : World := { wOk with readBytes := fun _ => .error ⟨"io"⟩ }

theorem C5_encoder_degrades_witness :
    (image_localpath_to_base64 wNoFile "missing.jpg").1 = Except.ok none ∧
      (image_localpath_to_base64 wReadErr "bad.jpg").1 = Except.ok none :=
  ⟨(C5_encoder_degrades wNoFile "missing.jpg").2.1 rfl,
   (C5_encoder_degrades wReadErr "bad.jpg").2.2 ⟨"io"⟩ rfl⟩

/-- C9: on a readable file the encoder returns the constant
`data:image/jpeg;base64,` tag followed by the base64 bytes, for every file
name — the media type never depends on the file or its extension. -/
theorem C9_media_type_constant (w : World) (f : String) (bs : List Nat)
    (h1 : w.fileExists ("input/" ++ f) = true)
    (h2 : w.readBytes ("input/" ++ f) = Except.ok bs) :
    (image_localpath_to_base64 w f).1 =
      Except.ok (some ("data:image/jpeg;base64," ++ base64Encode bs)) := by
  unfold image_localpath_to_base64
  simp [h1, h2]

theorem C9_media_type_constant_witness :
    (image_localpath_to_base64 wOk "ref.png").1 =
      Except.ok (some "data:image/jpeg;base64,TWFu") := by
  have h := C9_media_type_constant wOk "ref.png" [77, 97, 110] rfl rfl
  rw [h]
  rfl

/-- C10: when the remote call returns without a transport error but the
response has no first result entry, the client returns Failure (`None`)
rather than raising — the extraction is inside the same catch-all. -/
theorem C10_malformed_response (w : World) (p : String) (r : Option String)
    (resp : ArkResponse)
    (h1 : w.arkGenerate (mkRequest w p r) = Except.ok resp) (h2 : resp.data = []) :
    (image_generate_api w p r).1 = Except.ok none := by
  unfold image_generate_api
  simp [h1, h2]

/-- A world whose generation service returns an empty result list. -/
def wEmptyData : World := { wOk with arkGenerate := fun _ => .ok ⟨[]⟩ }

theorem C10_malformed_response_witness :
    (image_generate_api wEmptyData "p" none).1 = Except.ok none :=
  C10_malformed_response wEmptyData "p" none ⟨[]⟩ rfl rfl

/-- C4 counterexample: in a world where creating the output directory fails,
`image_url_to_localpath` does not propagate the exception — it returns
normally with Failure (`None`), contradicting the claim that this fault is
unhandled and fatal. -/
theorem C4_counterexample :
    (World.mkdir { wOk with mkdir := fun _ => .error ⟨"Permission denied"⟩ }
        (outDir (some "b")) = Except.error ⟨"Permission denied"⟩) ∧
      (image_url_to_localpath { wOk with mkdir := fun _ => .error ⟨"Permission denied"⟩ }
          "http://u" (some "b")).1 = Except.ok none :=
  ⟨rfl, rfl⟩

/-- C4 amended: a directory-creation failure is caught by the catch-all
handler of the fetcher — it logs and returns Failure, performing no retrieval. -/
theorem C4_mkdir_failure_swallowed (w : World) (url : String) (sd : Option String)
    (e : PyExn) (h : w.mkdir (outDir sd) = Except.error e) :
    (image_url_to_localpath w url sd).1 = Except.ok none ∧
      countP Event.isHttpGet (image_url_to_localpath w url sd).2 = 0 ∧
      (image_url_to_localpath w url sd).2 =
        [Event.mkdirEvt (outDir sd), Event.logError ("网络下载失败: " ++ e.msg)] := by
  have hfe : image_url_to_localpath w url sd =
      (Except.ok none,
       [Event.mkdirEvt (outDir sd), Event.logError ("网络下载失败: " ++ e.msg)]) := by
    unfold image_url_to_localpath
    simp [h]
  rw [hfe]
  exact ⟨rfl, rfl, rfl⟩

theorem C4_mkdir_failure_swallowed_witness :
    (image_url_to_localpath { wOk with mkdir := fun _ => .error ⟨"boom"⟩ }
        "http://u" none).1 = Except.ok none ∧
      countP Event.isHttpGet
        (image_url_to_localpath { wOk with mkdir := fun _ => .error ⟨"boom"⟩ }
          "http://u" none).2 = 0 :=
  ⟨(C4_mkdir_failure_swallowed { wOk with mkdir := fun _ => .error ⟨"boom"⟩ }
      "http://u" none ⟨"boom"⟩ rfl).1,
   (C4_mkdir_failure_swallowed { wOk with mkdir := fun _ => .error ⟨"boom"⟩ }
      "http://u" none ⟨"boom"⟩ rfl).2.1⟩

/-- C7: the fetcher performs at most one retrieval, always with timeout 60
against the given locator (exactly one when the directory step succeeds),
and on transport error or non-2xx status it returns Failure with no artifact
written and no retry. -/
theorem C7_fetch_single_retrieval (w : World) (url : String) (sd : Option String) :
    countP Event.isHttpGet (image_url_to_localpath w url sd).2 ≤ 1 ∧
      (∀ u t0, Event.httpGetEvt u t0 ∈ (image_url_to_localpath w url sd).2 →
        u = url ∧ t0 = 60) ∧
      (w.mkdir (outDir sd) = Except.ok () →
        countP Event.isHttpGet (image_url_to_localpath w url sd).2 = 1) ∧
      (∀ e, w.httpGet url 60 = Except.error e →
        (image_url_to_localpath w url sd).1 = Except.ok none ∧
          countP Event.isWrite (image_url_to_localpath w url sd).2 = 0) ∧
      (∀ resp, w.httpGet url 60 = Except.ok resp →
        (resp.status < 200 ∨ 300 ≤ resp.status) →
        (image_url_to_localpath w url sd).1 = Except.ok none ∧
          countP Event.isWrite (image_url_to_localpath w url sd).2 = 0) := by
  cases hm : w.mkdir (outDir sd) with
  | error e =>
    have hfe : image_url_to_localpath w url sd =
        (Except.ok none,
         [Event.mkdirEvt (outDir sd), Event.logError ("网络下载失败: " ++ e.msg)]) := by
      unfold image_url_to_localpath
      simp [hm]
    rw [hfe]
    refine ⟨by simp [countP, Event.isHttpGet], ?_, ?_, ?_, ?_⟩
    · intro u t0 hmem
      simp at hmem
    · intro hc
      exact Except.noConfusion hc
    · exact fun e2 _ => ⟨rfl, rfl⟩
    · exact fun resp _ _ => ⟨rfl, rfl⟩
  | ok u =>
    cases hg : w.httpGet url 60 with
    | error e =>
      have hfe : image_url_to_localpath w url sd =
          (Except.ok none,
           [Event.mkdirEvt (outDir sd), Event.httpGetEvt url 60,
            Event.logError ("网络下载失败: " ++ e.msg)]) := by
        unfold image_url_to_localpath
        simp [hm, hg]
      rw [hfe]
      refine ⟨by simp [countP, Event.isHttpGet], ?_,
        fun _ => by simp [countP, Event.isHttpGet], fun e2 _ => ⟨rfl, rfl⟩, ?_⟩
      · intro u2 t0 hmem
        simp at hmem
        exact hmem
      · intro resp hr
        exact Except.noConfusion hr
    | ok resp =>
      by_cases hs : 200 ≤ resp.status ∧ resp.status < 300
      · cases hw : w.writeFile (outDir sd ++ "/" ++ w.nowStr ++ ".png") resp.content with
        | error e =>
          have hfe : image_url_to_localpath w url sd =
              (Except.ok none,
               [Event.mkdirEvt (outDir sd), Event.httpGetEvt url 60,
                Event.logError ("网络下载失败: " ++ e.msg)]) := by
            unfold image_url_to_localpath
            simp [hm, hg, hs, hw]
          rw [hfe]
          refine ⟨by simp [countP, Event.isHttpGet], ?_,
            fun _ => by simp [countP, Event.isHttpGet], ?_, ?_⟩
          · intro u2 t0 hmem
            simp at hmem
            exact hmem
          · intro e2 he2
            exact Except.noConfusion he2
          · intro resp2 hr2 hbad
            exfalso
            injection hr2 with hre
            subst hre
            omega
        | ok u2 =>
          have hfe : image_url_to_localpath w url sd =
              (Except.ok (some (outDir sd ++ "/" ++ w.nowStr ++ ".png")),
               [Event.mkdirEvt (outDir sd), Event.httpGetEvt url 60,
                Event.fileWrite (outDir sd ++ "/" ++ w.nowStr ++ ".png")]) := by
            unfold image_url_to_localpath
            simp [hm, hg, hs, hw]
          rw [hfe]
          refine ⟨by simp [countP, Event.isHttpGet], ?_,
            fun _ => by simp [countP, Event.isHttpGet], ?_, ?_⟩
          · intro u3 t0 hmem
            simp at hmem
            exact hmem
          · intro e2 he2
            exact Except.noConfusion he2
          · intro resp2 hr2 hbad
            exfalso
            injection hr2 with hre
            subst hre
            omega
      · have hfe : image_url_to_localpath w url sd =
            (Except.ok none,
             [Event.mkdirEvt (outDir sd), Event.httpGetEvt url 60,
              Event.logError ("网络下载失败: " ++ "HTTPStatusError")]) := by
          unfold image_url_to_localpath
          simp [hm, hg, hs]
        rw [hfe]
        refine ⟨by simp [countP, Event.isHttpGet], ?_,
          fun _ => by simp [countP, Event.isHttpGet], ?_, fun resp2 _ _ => ⟨rfl, rfl⟩⟩
        · intro u2 t0 hmem
          simp at hmem
          exact hmem
        · intro e2 he2
          exact Except.noConfusion he2

/-- A world whose HTTP transport fails. -/
def wHttpErr : World := { wOk with httpGet := fun _ _ => .error ⟨"conn"⟩ }

/-- A world whose HTTP responses are 404s. -/
def wHttp404 : World := { wOk with httpGet := fun _ _ => .ok ⟨404, []⟩ }

theorem C7_fetch_single_retrieval_witness :
    countP Event.isHttpGet (image_url_to_localpath wOk "http://u" (some "b")).2 = 1 ∧
      (image_url_to_localpath wHttpErr "http://u" (some "b")).1 = Except.ok none ∧
      (image_url_to_localpath wHttp404 "http://u" (some "b")).1 = Except.ok none :=
  ⟨(C7_fetch_single_retrieval wOk "http://u" (some "b")).2.2.1 rfl,
   ((C7_fetch_single_retrieval wHttpErr "http://u" (some "b")).2.2.2.1 ⟨"conn"⟩ rfl).1,
   ((C7_fetch_single_retrieval wHttp404 "http://u" (some "b")).2.2.2.2 ⟨404, []⟩ rfl
      (by decide)).1⟩

/-- The reference payload `run_single_task` hands to the generation call. -/
def refPayload (w : World) (t : TaskConfig) : Option String :=
  if pyTruthy t.ref_file then
    match (image_localpath_to_base64 w (t.ref_file.getD "")).1 with
    | .ok r => r
    | .error _ => none
  else none

/-- The locator `run_single_task` observes from the generation call. -/
def genResult (w : World) (t : TaskConfig) : Option String :=
  match (image_generate_api w t.prompt (refPayload w t)).1 with
  | .ok u => u
  | .error _ => none

theorem gen_fst (w : World) (t : TaskConfig) :
    (image_generate_api w t.prompt (refPayload w t)).1 = Except.ok (genResult w t) := by
  obtain ⟨u, evs, heq⟩ := image_generate_api_no_exn w t.prompt (refPayload w t)
  unfold genResult
  rw [heq]

theorem gen_counts (w : World) (p : String) (r : Option String) :
    countP Event.isCallStart (image_generate_api w p r).2 = 1 ∧
      countP Event.isMkdir (image_generate_api w p r).2 = 0 ∧
      countP Event.isWrite (image_generate_api w p r).2 = 0 := by
  unfold image_generate_api
  cases hr : w.arkGenerate (mkRequest w p r) with
  | error e =>
    simp [hr, countP, Event.isCallStart, Event.isMkdir, Event.isWrite]
  | ok resp =>
    cases hd : resp.data <;>
      simp [hr, hd, countP, Event.isCallStart, Event.isMkdir, Event.isWrite]

theorem gen_callStart_mem (w : World) (p : String) (r : Option String) :
    Event.callStart (mkRequest w p r) ∈ (image_generate_api w p r).2 := by
  unfold image_generate_api
  cases hr : w.arkGenerate (mkRequest w p r) with
  | error e => simp [hr]
  | ok resp => cases hd : resp.data <;> simp [hr, hd]

theorem enc_events (w : World) (f : String) :
    ∀ e ∈ (image_localpath_to_base64 w f).2, ∃ m, e = Event.logError m := by
  unfold image_localpath_to_base64
  by_cases h : w.fileExists ("input/" ++ f) = false
  · simp [h]
  · cases hr : w.readBytes ("input/" ++ f) with
    | error e =>
      simp [h, hr]
    | ok bs => simp [h, hr]

theorem logError_only_counts {l : List Event}
    (h : ∀ e ∈ l, ∃ m, e = Event.logError m) :
    countP Event.isCallStart l = 0 ∧ countP Event.isMkdir l = 0 ∧
      countP Event.isWrite l = 0 := by
  refine ⟨?_, ?_, ?_⟩ <;>
    · apply countP_eq_zero_of_any_false
      rw [List.any_eq_false]
      intro e he
      rcases h e he with ⟨m, rfl⟩
      simp [Event.isCallStart, Event.isMkdir, Event.isWrite]

theorem fetch_counts (w : World) (url : String) (sd : Option String) :
    countP Event.isMkdir (image_url_to_localpath w url sd).2 = 1 ∧
      countP Event.isWrite (image_url_to_localpath w url sd).2 ≤ 1 ∧
      countP Event.isCallStart (image_url_to_localpath w url sd).2 = 0 := by
  unfold image_url_to_localpath
  cases hm : w.mkdir (outDir sd) with
  | error e =>
    simp [hm, countP, Event.isMkdir, Event.isWrite, Event.isCallStart]
  | ok u =>
    cases hg : w.httpGet url 60 with
    | error e =>
      simp [hm, hg, countP, Event.isMkdir, Event.isWrite, Event.isCallStart]
    | ok resp =>
      by_cases hs : 200 ≤ resp.status ∧ resp.status < 300
      · cases hw : w.writeFile (outDir sd ++ "/" ++ w.nowStr ++ ".png") resp.content <;>
          simp [hm, hg, hs, hw, countP, Event.isMkdir, Event.isWrite, Event.isCallStart]
      · simp [hm, hg, hs, countP, Event.isMkdir, Event.isWrite, Event.isCallStart]

theorem pyTruthy_iff (o : Option String) : pyTruthy o = true ↔ ∃ s, o = some s ∧ s ≠ "" := by
  cases o with
  | none => simp [pyTruthy]
  | some s => simp [pyTruthy]

/-- The full event trace of `run_single_task`: the encoder events (when a
reference is given), the start log line, the generation events, and the
fetch events exactly when the returned locator is truthy. -/
theorem run_single_task_trace (w : World) (t : TaskConfig) :
    run_single_task w t =
      (Except.ok (),
       (if pyTruthy t.ref_file then (image_localpath_to_base64 w (t.ref_file.getD "")).2
        else []) ++
         [Event.logInfo ("🚀 启动任务: " ++ t.prompt)] ++
         (image_generate_api w t.prompt (refPayload w t)).2 ++
         (if pyTruthy (genResult w t) then
            (image_url_to_localpath w ((genResult w t).getD "") t.batch_subdir).2
          else [])) := by
  obtain ⟨r1, evs1, he⟩ := image_localpath_to_base64_no_exn w (t.ref_file.getD "")
  cases hrf : pyTruthy t.ref_file with
  | true =>
    have hrp : refPayload w t = r1 := by
      unfold refPayload
      rw [hrf, if_pos rfl, he]
    obtain ⟨u2, evs2, hg2⟩ := image_generate_api_no_exn w t.prompt r1
    have hgr : genResult w t = u2 := by
      unfold genResult
      rw [hrp, hg2]
    cases hu : pyTruthy u2 with
    | true =>
      obtain ⟨r3, evs3, hf⟩ := image_url_to_localpath_no_exn w (u2.getD "") t.batch_subdir
      unfold run_single_task
      rw [hrp, hgr]
      simp [hrf, he, hg2, hu, hf]
    | false =>
      unfold run_single_task
      rw [hrp, hgr]
      simp [hrf, he, hg2, hu]
  | false =>
    have hrp : refPayload w t = none := by
      unfold refPayload
      rw [hrf]
      simp
    obtain ⟨u2, evs2, hg2⟩ := image_generate_api_no_exn w t.prompt none
    have hgr : genResult w t = u2 := by
      unfold genResult
      rw [hrp, hg2]
    cases hu : pyTruthy u2 with
    | true =>
      obtain ⟨r3, evs3, hf⟩ := image_url_to_localpath_no_exn w (u2.getD "") t.batch_subdir
      unfold run_single_task
      rw [hrp, hgr]
      simp [hrf, hg2, hu, hf]
    | false =>
      unfold run_single_task
      rw [hrp, hgr]
      simp [hrf, hg2, hu]

/-- C6 counterexample for the clause "the Fetcher is invoked exactly when
generation returns a locator": in a world whose service responds with the
locator `""`, generation returns a locator (`some ""`, not `None`), yet the
truthiness test in the runner skips the fetch — no fetcher invocation occurs. -/
theorem C6_counterexample :
    (image_generate_api { wOk with arkGenerate := fun _ => .ok ⟨[⟨""⟩]⟩ } "p"
        (refPayload { wOk with arkGenerate := fun _ => .ok ⟨[⟨""⟩]⟩ } ⟨"p", none, none⟩)).1 =
        Except.ok (some "") ∧
      countP Event.isMkdir
        (run_single_task { wOk with arkGenerate := fun _ => .ok ⟨[⟨""⟩]⟩ }
          ⟨"p", none, none⟩).2 = 0 :=
  ⟨rfl, rfl⟩

/-- C6 (amended): the runner always attempts generation exactly once; when
the reference payload is Empty or absent the call carries no reference; when
generation returns Failure the fetch stage is skipped; the fetcher is invoked
at most once — exactly when generation returns a non-empty locator (the
runner tests the locator for truthiness, so the empty-string locator also
skips the fetch) — and at most one artifact is written. -/
theorem C6_runner_short_circuit (w : World) (t : TaskConfig) :
    countP Event.isCallStart (run_single_task w t).2 = 1 ∧
      (refPayload w t = none →
        Event.callStart (mkRequest w t.prompt none) ∈ (run_single_task w t).2) ∧
      ((image_generate_api w t.prompt (refPayload w t)).1 = Except.ok none →
        countP Event.isMkdir (run_single_task w t).2 = 0) ∧
      countP Event.isWrite (run_single_task w t).2 ≤ 1 ∧
      countP Event.isMkdir (run_single_task w t).2 ≤ 1 ∧
      (countP Event.isMkdir (run_single_task w t).2 = 1 ↔
        ∃ u, (image_generate_api w t.prompt (refPayload w t)).1 = Except.ok (some u) ∧
          u ≠ "") := by
  have htr := run_single_task_trace w t
  have hencCounts : countP Event.isCallStart
        (if pyTruthy t.ref_file then (image_localpath_to_base64 w (t.ref_file.getD "")).2
         else []) = 0 ∧
      countP Event.isMkdir
        (if pyTruthy t.ref_file then (image_localpath_to_base64 w (t.ref_file.getD "")).2
         else []) = 0 ∧
      countP Event.isWrite
        (if pyTruthy t.ref_file then (image_localpath_to_base64 w (t.ref_file.getD "")).2
         else []) = 0 := by
    cases hrf : pyTruthy t.ref_file with
    | true =>
      simp only [if_pos rfl]
      exact logError_only_counts (enc_events w (t.ref_file.getD ""))
    | false => simp [hrf, countP]
  obtain ⟨hg1, hg2, hg3⟩ := gen_counts w t.prompt (refPayload w t)
  have hlogz : ∀ p2 : Event → Bool, p2 (Event.logInfo ("🚀 启动任务: " ++ t.prompt)) = false →
      countP p2 [Event.logInfo ("🚀 启动任务: " ++ t.prompt)] = 0 := by
    intro p2 hp2
    simp [countP, hp2]
  have hfetchz : ∀ p2 : Event → Bool,
      countP p2 (if pyTruthy (genResult w t) then
        (image_url_to_localpath w ((genResult w t).getD "") t.batch_subdir).2 else []) =
      (if pyTruthy (genResult w t) then
        countP p2 (image_url_to_localpath w ((genResult w t).getD "") t.batch_subdir).2
       else 0) := by
    intro p2
    cases hgt : pyTruthy (genResult w t) <;> simp [countP]
  rw [htr]
  simp only [countP_append, hencCounts.1, hencCounts.2.1, hencCounts.2.2, hg1, hg2, hg3,
    hlogz Event.isCallStart rfl, hlogz Event.isMkdir rfl, hlogz Event.isWrite rfl, hfetchz]
  obtain ⟨hf1, hf2, hf3⟩ :=
    fetch_counts w ((genResult w t).getD "") t.batch_subdir
  refine ⟨?_, ?_, ?_, ?_, ?_, ?_⟩
  · cases hgt : pyTruthy (genResult w t) <;> simp [hf3]
  · intro hnone
    rw [← hnone]
    simp only [List.mem_append]
    exact Or.inl (Or.inr (gen_callStart_mem w t.prompt (refPayload w t)))
  · intro hfail
    have : genResult w t = none := by
      unfold genResult
      rw [hfail]
    rw [this]
    simp [pyTruthy]
  · cases hgt : pyTruthy (genResult w t) <;> simp [hf2]
  · cases hgt : pyTruthy (genResult w t) <;> simp [hf1]
  · cases hgt : pyTruthy (genResult w t) with
    | true =>
      simp only [if_pos rfl, hf1]
      rw [gen_fst w t]
      constructor
      · intro _
        rcases (pyTruthy_iff _).mp hgt with ⟨s, hs, hne⟩
        exact ⟨s, by rw [hs], hne⟩
      · intro _
        rfl
    | false =>
      simp only [if_neg Bool.false_ne_true]
      rw [gen_fst w t]
      constructor
      · intro hz
        exact absurd hz (by omega)
      · intro ⟨u, hu, hne⟩
        exfalso
        have h3 : genResult w t = some u := Except.ok.inj hu
        have h4 := (pyTruthy_iff (genResult w t)).mpr ⟨u, h3, hne⟩
        rw [hgt] at h4
        exact Bool.noConfusion h4

theorem C6_runner_short_circuit_witness :
    countP Event.isCallStart (run_single_task wOk ⟨"p", some "x.png", some "x_png"⟩).2 = 1 ∧
      Event.callStart (mkRequest wNoFile "p" none) ∈
        (run_single_task wNoFile ⟨"p", some "missing.jpg", none⟩).2 ∧
      countP Event.isMkdir (run_single_task wEmptyData ⟨"p", none, none⟩).2 = 0 :=
  ⟨(C6_runner_short_circuit wOk ⟨"p", some "x.png", some "x_png"⟩).1,
   (C6_runner_short_circuit wNoFile ⟨"p", some "missing.jpg", none⟩).2.1 rfl,
   (C6_runner_short_circuit wEmptyData ⟨"p", none, none⟩).2.2.1 rfl⟩

theorem buildRow_length (rnd : Nat → Nat) (name : String) (imgs : List String) (k : Nat) :
    (buildRow rnd name imgs k).length = imgs.length := by
  induction imgs generalizing k with
  | nil => rfl
  | cons img rest ih => simp [buildRow, ih]

theorem buildRow_getElem (rnd : Nat → Nat) (name : String) (imgs : List String)
    (k j : Nat) (hj : j < imgs.length) :
    (buildRow rnd name imgs k)[j]? = some (mkTask rnd (k + j) name (imgs.get ⟨j, hj⟩)) := by
  induction imgs generalizing k j with
  | nil => exact absurd hj (Nat.not_lt_zero j)
  | cons img rest ih =>
    cases j with
    | zero => simp [buildRow]
    | succ j2 =>
      have hj2 : j2 < rest.length := by
        simp at hj
        omega
      have := ih (k + 1) j2 hj2
      simp only [buildRow, List.getElem?_cons_succ, this]
      have harith : k + 1 + j2 = k + (j2 + 1) := by omega
      rw [harith]
      rfl

theorem buildRows_length (rnd : Nat → Nat) (imgs names : List String) (k : Nat) :
    (buildRows rnd imgs names k).length = names.length * imgs.length := by
  induction names generalizing k with
  | nil => simp [buildRows]
  | cons name rest ih =>
    simp only [buildRows, List.length_append, buildRow_length, ih, List.length_cons]
    ring

theorem buildRows_getElem (rnd : Nat → Nat) (imgs names : List String) (k i j : Nat)
    (hi : i < names.length) (hj : j < imgs.length) :
    (buildRows rnd imgs names k)[i * imgs.length + j]? =
      some (mkTask rnd (k + (i * imgs.length + j)) (names.get ⟨i, hi⟩)
        (imgs.get ⟨j, hj⟩)) := by
  induction names generalizing k i with
  | nil => exact absurd hi (Nat.not_lt_zero i)
  | cons name rest ih =>
    cases i with
    | zero =>
      simp only [buildRows, Nat.zero_mul, Nat.zero_add]
      rw [List.getElem?_append_left (by rw [buildRow_length]; exact hj)]
      simp [buildRow_getElem rnd name imgs k j hj]
    | succ i2 =>
      have hi2 : i2 < rest.length := by
        simp at hi
        omega
      simp only [buildRows]
      rw [List.getElem?_append_right (by
        rw [buildRow_length]
        have hmul : (i2 + 1) * imgs.length = i2 * imgs.length + imgs.length := by ring
        omega)]
      rw [buildRow_length]
      have harith : (i2 + 1) * imgs.length + j - imgs.length = i2 * imgs.length + j := by
        have : (i2 + 1) * imgs.length = i2 * imgs.length + imgs.length := by ring
        omega
      rw [harith, ih (k + imgs.length) i2 hi2]
      have harith2 : k + imgs.length + (i2 * imgs.length + j) =
          k + ((i2 + 1) * imgs.length + j) := by
        have : (i2 + 1) * imgs.length = i2 * imgs.length + imgs.length := by ring
        omega
      rw [harith2]
      rfl

/-- One sequential tagging of a list of task traces, used to exhibit a
concrete `asyncio.gather` interleaving. -/
def seqTagFrom (i0 : Nat) : List (List Event) → List (Nat × Event)
  | [] => []
  | l :: rest => l.map (fun e => (i0, e)) ++ seqTagFrom (i0 + 1) rest

theorem proj_map_tag (i0 : Nat) (l : List Event) (i : Nat) :
    proj (l.map (fun e => (i0, e))) i = if i0 = i then l else [] := by
  induction l with
  | nil => by_cases h : i0 = i <;> simp [proj, h]
  | cons e rest ih =>
    simp only [List.map_cons, proj_cons]
    by_cases h : i0 = i
    · subst h
      rw [if_pos rfl, if_pos rfl, ih, if_pos rfl]
    · rw [if_neg h, if_neg h, ih, if_neg h]

theorem seqTagFrom_ids (ts : List (List Event)) (i0 : Nat) :
    ∀ pe ∈ seqTagFrom i0 ts, i0 ≤ pe.1 ∧ pe.1 < i0 + ts.length := by
  induction ts generalizing i0 with
  | nil => intro pe hpe; exact absurd hpe (List.not_mem_nil pe)
  | cons l rest ih =>
    intro pe hpe
    rcases List.mem_append.mp hpe with hml | hmr
    · rcases List.mem_map.mp hml with ⟨e, he, rfl⟩
      simp
    · have := ih (i0 + 1) pe hmr
      simp only [List.length_cons]
      omega

theorem proj_seqTagFrom (ts : List (List Event)) (i0 i : Nat) :
    proj (seqTagFrom i0 ts) i =
      if i0 ≤ i ∧ i < i0 + ts.length then ts.getD (i - i0) [] else [] := by
  induction ts generalizing i0 with
  | nil =>
    rw [if_neg (by simp)]
    simp [seqTagFrom, proj]
  | cons l rest ih =>
    simp only [seqTagFrom, proj_append, proj_map_tag]
    by_cases h1 : i0 = i
    · subst h1
      rw [if_pos rfl, ih (i0 + 1)]
      rw [if_neg (by omega)]
      have hc : i0 ≤ i0 ∧ i0 < i0 + (l :: rest).length := by
        simp only [List.length_cons]
        omega
      rw [if_pos hc]
      simp
    · rw [if_neg h1, ih (i0 + 1)]
      by_cases h2 : i0 + 1 ≤ i ∧ i < i0 + 1 + rest.length
      · rw [if_pos h2]
        have hc : i0 ≤ i ∧ i < i0 + (l :: rest).length := by
          simp only [List.length_cons]
          omega
        rw [if_pos hc]
        have harith : i - i0 = (i - (i0 + 1)) + 1 := by omega
        rw [harith]
        simp
      · rw [if_neg h2]
        rw [if_neg (by
          intro hc
          rcases hc with ⟨hc1, hc2⟩
          simp only [List.length_cons] at hc2
          exact h2 ⟨by omega, by omega⟩)]
        rfl

/-- The sequential tagging is one legal completed gather interleaving. -/
theorem gatherRel_seqTag (ts : List (List Event)) : gatherRel ts (seqTagFrom 0 ts) := by
  constructor
  · intro pe hpe
    have := seqTagFrom_ids ts 0 pe hpe
    omega
  · intro i hi
    rw [proj_seqTagFrom]
    rw [if_pos ⟨Nat.zero_le i, by omega⟩]
    simp

/-- C8: `main` builds exactly the full cross product — one task per
(subject, reference file) pair, `|subjects| * |referenceFiles|` in total, the
`(i, j)` pair sitting at index `i * |referenceFiles| + j` — and in every
completed gather interleaving of all task traces the completion marker is
logged last, after every task has resolved. -/
theorem C8_cross_product (w : World) (rnd : Nat → Nat) :
    (mainTasks w rnd).length = refNameList.length * w.inputListing.length ∧
      (∀ i j (hi : i < refNameList.length) (hj : j < w.inputListing.length),
        (mainTasks w rnd)[i * w.inputListing.length + j]? =
          some (mkTask rnd (i * w.inputListing.length + j) (refNameList.get ⟨i, hi⟩)
            (w.inputListing.get ⟨j, hj⟩))) ∧
      (∀ tr, mainRel w rnd tr →
        tr.getLast? = some (none, Event.logInfo mainDoneMsg) ∧
          tr.head? = some (none, Event.logInfo (mainStartMsg (mainTasks w rnd).length))) := by
  refine ⟨buildRows_length rnd w.inputListing refNameList 0, ?_, ?_⟩
  · intro i j hi hj
    have h := buildRows_getElem rnd w.inputListing refNameList 0 i j hi hj
    rw [Nat.zero_add] at h
    exact h
  · intro tr htr
    obtain ⟨g, hg, rfl⟩ := htr
    constructor
    · rw [← List.cons_append]
      exact List.getLast?_concat _
    · rfl

theorem C8_cross_product_witness :
    (mainTasks wOk (fun _ => 0)).length = 10 * 1 ∧
      (mainTasks wOk (fun _ => 0))[0]? =
        some (mkTask (fun _ => 0) 0 "刘亦菲" "x.png") ∧
      ((none, Event.logInfo (mainStartMsg (mainTasks wOk (fun _ => 0)).length)) ::
          ((seqTagFrom 0 (taskTraces wOk (fun _ => 0))).map (fun pe => (some pe.1, pe.2)) ++
            [((none : Option Nat), Event.logInfo mainDoneMsg)])).getLast? =
        some (none, Event.logInfo mainDoneMsg) :=
  ⟨(C8_cross_product wOk (fun _ => 0)).1,
   (C8_cross_product wOk (fun _ => 0)).2.1 0 0 (by decide) (by decide),
   ((C8_cross_product wOk (fun _ => 0)).2.2 _
     ⟨seqTagFrom 0 (taskTraces wOk (fun _ => 0)),
      gatherRel_seqTag (taskTraces wOk (fun _ => 0)), rfl⟩).1⟩

theorem buildRow_mem {rnd : Nat → Nat} {name : String} {imgs : List String} {k : Nat}
    {t : TaskConfig} (h : t ∈ buildRow rnd name imgs k) :
    ∃ img ∈ imgs, ∃ k2, t = mkTask rnd k2 name img := by
  induction imgs generalizing k with
  | nil => exact absurd h (List.not_mem_nil t)
  | cons img rest ih =>
    rcases List.mem_cons.mp h with rfl | hr
    · exact ⟨img, List.mem_cons_self _ _, k, rfl⟩
    · obtain ⟨img2, hm, k2, rfl⟩ := ih hr
      exact ⟨img2, List.mem_cons_of_mem _ hm, k2, rfl⟩

theorem buildRows_mem {rnd : Nat → Nat} {imgs names : List String} {k : Nat}
    {t : TaskConfig} (h : t ∈ buildRows rnd imgs names k) :
    ∃ name ∈ names, ∃ img ∈ imgs, ∃ k2, t = mkTask rnd k2 name img := by
  induction names generalizing k with
  | nil => exact absurd h (List.not_mem_nil t)
  | cons name rest ih =>
    rcases List.mem_append.mp h with hl | hr
    · obtain ⟨img, hm, k2, rfl⟩ := buildRow_mem hl
      exact ⟨name, List.mem_cons_self _ _, img, hm, k2, rfl⟩
    · obtain ⟨name2, hn, img, hm, k2, rfl⟩ := ih hr
      exact ⟨name2, List.mem_cons_of_mem _ hn, img, hm, k2, rfl⟩

/-- C3 counterexample: with two reference files on disk, the first two tasks
of one orchestration run carry different `batch_subdir` tags — the units of
one run do not share a single batch tag. -/
theorem C3_counterexample :
    ((mainTasks { wOk with inputListing := ["x.png", "y.jpg"] } (fun _ => 0))[0]?).map
        TaskConfig.batch_subdir = some (some "x_png") ∧
      ((mainTasks { wOk with inputListing := ["x.png", "y.jpg"] } (fun _ => 0))[1]?).map
        TaskConfig.batch_subdir = some (some "y_jpg") :=
  ⟨rfl, rfl⟩

/-- C3 (amended): every task of a run is tagged with a subdirectory derived
from its own reference file name (dots replaced by underscores), so tasks
sharing a reference file share a tag, but a run with two distinct reference
files has two distinct tags; no tag is derived from the start timestamp. -/
theorem C3_tag_per_reference (w : World) (rnd : Nat → Nat) (t : TaskConfig)
    (ht : t ∈ mainTasks w rnd) :
    ∃ img ∈ w.inputListing, t.ref_file = some img ∧
      t.batch_subdir = some (dotToUnderscore img) := by
  obtain ⟨name, hn, img, hm, k2, rfl⟩ := buildRows_mem ht
  exact ⟨img, hm, rfl, rfl⟩

theorem C3_tag_per_reference_witness :
    ∃ img ∈ wOk.inputListing,
      (mkTask (fun _ => 0) 0 "刘亦菲" "x.png").ref_file = some img ∧
        (mkTask (fun _ => 0) 0 "刘亦菲" "x.png").batch_subdir =
          some (dotToUnderscore img) :=
  C3_tag_per_reference wOk (fun _ => 0) (mkTask (fun _ => 0) 0 "刘亦菲" "x.png")
    (@List.getElem?_mem TaskConfig (mainTasks wOk (fun _ => 0)) 0
      (mkTask (fun _ => 0) 0 "刘亦菲" "x.png") rfl)
